import Mathlib

/-!
# Verification of the backward trace-resolution engine (src/backward/resolve.cpp)

This file shallowly embeds the parts of `backward/resolve.cpp` that the
specification talks about, and proves (or refutes) the spec claims about them:

* the resolver facade `backward::resolve` with its process-wide address cache;
* the libdwarf backend `TraceResolverLinuxImpl<trace_resolver_tag::libdwarf>`:
  object loading (`load_object_with_dwarf`), compilation-unit / line-table
  lookup, the DIE tree search (`deep_first_search_by_pc`, `die_has_pc`,
  `inliners_search_cb`) and signature reconstruction
  (`set_function_parameters`, `set_parameter_string`);
* the libdw backend initialization logic.

Machine pointers are modelled as `Nat` (they are only used as keys, never
dereferenced).  External C library calls (dladdr, libelf, libdwarf, the
demangler) are modelled as oracle fields of environment records: the code
under verification only branches on their results, and each oracle captures
exactly the results the code inspects.
-/

namespace Backward

/-- A machine address (the C++ `void *`).  Used only as a key. -/
abbrev Addr := Nat

/-- `backward::SourceLoc`: filename, function, line, column.
Empty strings and zero line are the "unknown" sentinel values. -/
structure SourceLoc where
  function : String := ""
  filename : String := ""
  line : Nat := 0
  col : Nat := 0
deriving DecidableEq, Repr

/-- `backward::ResolvedTrace`: the trace plus everything resolution fills in.
`addr` and `idx` come from the base `Trace`. -/
structure ResolvedTrace where
  addr : Addr
  idx : Nat
  object_filename : String := ""
  object_function : String := ""
  source : SourceLoc := {}
  inliners : List SourceLoc := []
deriving DecidableEq, Repr

/-! ## The resolver facade and the process-wide address cache

`backward::resolve(alloc, addresses)` keeps a static
`std::unordered_map<void*, SourceLoc> locs`; for each address of the batch it
either returns the cached `SourceLoc` or invokes the backend once
(`resolver.resolve(ResolvedTrace(Trace(addr, i)))`) and stores `res.source`.
The map is modelled as an association list with `unordered_map::find` /
`emplace` semantics; the backend is an oracle `f : Addr → SourceLoc` (the
active backend resolves a given address to the same location every time it is
asked, which is how the DWARF backends behave; `load_addresses` batch priming
has no observable effect for such a backend and is dropped).  The
`invocations` field instruments which addresses were dispatched to the
backend. -/

/-- The process-wide address cache `locs`. -/
abbrev Cache := List (Addr × SourceLoc)

/-- `locs.find(addr)` on the association list. -/
def cacheFind (c : Cache) (a : Addr) : Option SourceLoc :=
  match c.find? (fun p => p.1 == a) with
  | some p => some p.2
  | none => none

/-- State of the facade: the address cache plus an instrumentation list of
the addresses for which the backend `resolve` was actually invoked. -/
structure FacadeState where
  locs : Cache := []
  invocations : List Addr := []
deriving DecidableEq, Repr

/-- The loop body of `backward::resolve`: for each address, consult the cache;
on a miss invoke the backend and `emplace` the result. -/
def resolveLoop (f : Addr → SourceLoc) :
    List Addr → FacadeState → List SourceLoc × FacadeState
  | [], st => ([], st)
  | a :: rest, st =>
    match cacheFind st.locs a with
    | some v =>
      let (out, st') := resolveLoop f rest st
      (v :: out, st')
    | none =>
      let v := f a
      let (out, st') := resolveLoop f rest
        { locs := st.locs ++ [(a, v)], invocations := st.invocations ++ [a] }
      (v :: out, st')

/-- One call of the facade `backward::resolve` on a batch of addresses. -/
def resolveBatch (f : Addr → SourceLoc) (st : FacadeState)
    (addresses : List Addr) : List SourceLoc × FacadeState :=
  resolveLoop f addresses st

/-- Several facade calls in sequence within one process run. -/
def runBatches (f : Addr → SourceLoc) :
    List (List Addr) → FacadeState → List (List SourceLoc) × FacadeState
  | [], st => ([], st)
  | b :: bs, st =>
    let (out, st') := resolveBatch f st b
    let (outs, st'') := runBatches f bs st'
    (out :: outs, st'')

/-- The initial state of the process: both statics start empty. -/
def initFacade : FacadeState := {}

/-- The cache only ever holds values the backend produced. -/
def CacheConsistent (f : Addr → SourceLoc) (st : FacadeState) : Prop :=
  ∀ a v, cacheFind st.locs a = some v → v = f a

/-- Every invoked address is present in the cache. -/
def InvocationsCached (st : FacadeState) : Prop :=
  ∀ a, a ∈ st.invocations → (cacheFind st.locs a).isSome

/-! ## The object-file loader (`load_object_with_dwarf`)

`load_object_with_dwarf(filename)` first consults the per-path map
`_fobj_dwarf_map`; on a miss it creates the (empty) map entry and then tries,
step by step: `open`, `elf_begin`, the ELF header reads
(`elf_getident` / `elf_getshdrnum` / `elf_getshdrstrndx`), the section scan
(which fills the entry's `symbol_cache` and picks up a `.gnu_debuglink`
name), the optional switch to the split-debug file, and `dwarf_elf_init`.
Every failing step returns the still-cached entry as it is at that point.
The filesystem and the ELF/DWARF libraries are an oracle `LoaderEnv`; the
`opens` list instruments every `open` syscall issued. -/

/-- What the ELF/DWARF libraries report for one file path. -/
structure ElfFile where
  /-- `open(path, O_RDONLY)` yields a usable descriptor. -/
  openable : Bool := false
  /-- `elf_begin` on that descriptor yields a handle. -/
  elfBeginOk : Bool := false
  /-- `elf_getident`, `elf_getshdrnum` and `elf_getshdrstrndx` all succeed. -/
  headerOk : Bool := false
  /-- The `STT_FUNC` entries (value, name) the section scan collects from
  `.symtab`, falling back to `.dynsym` when no static table exists. -/
  symbols : List (Nat × String) := []
  /-- The file name stored in a `.gnu_debuglink` section, when present. -/
  debuglink : Option String := none
  /-- `dwarf_elf_init` on this file's ELF handle succeeds. -/
  hasDwarf : Bool := false
deriving DecidableEq, Repr

/-- The filesystem / library oracle: what loading each path reports. -/
abbrev LoaderEnv := String → ElfFile

/-- The observable content of a cached `dwarf_fileobject`. -/
structure FileObj where
  /-- Which file's descriptor and ELF handle the object retains (`none`
  when the load failed and the temporaries were destroyed). -/
  heldPath : Option String := none
  /-- `dwarf_handle` is non-null. -/
  dwarfOk : Bool := false
  /-- `symbol_cache`, filled by the section scan of the original file. -/
  symbolCache : List (Nat × String) := []
deriving DecidableEq, Repr

/-- Loader state: the `_fobj_dwarf_map` cache plus an instrumentation list
of every `open` syscall issued. -/
structure LoaderState where
  cache : List (String × FileObj) := []
  opens : List String := []
deriving DecidableEq, Repr

/-- `_fobj_dwarf_map.find(path)`. -/
def loaderFind (st : LoaderState) (path : String) : Option FileObj :=
  match st.cache.find? (fun p => p.1 == path) with
  | some p => some p.2
  | none => none

/-- `backward::...::load_object_with_dwarf`. -/
def loadObjectWithDwarf (env : LoaderEnv) (st : LoaderState) (path : String) :
    FileObj × LoaderState :=
  match loaderFind st path with
  | some r => (r, st)
  | none =>
    -- `_fobj_dwarf_map[filename_object]` creates the empty entry; every
    -- early return leaves it cached in whatever shape it has by then.
    let finish : FileObj → LoaderState → FileObj × LoaderState := fun r st' =>
      (r, { st' with cache := st'.cache ++ [(path, r)] })
    let f := env path
    let st1 : LoaderState := { st with opens := st.opens ++ [path] }
    if !f.openable then finish {} st1
    else if !f.elfBeginOk then finish {} st1
    else if !f.headerOk then finish {} st1
    else
      -- the section scan fills the cached entry's symbol cache (and finds
      -- the debuglink name) before any debug-information is opened
      let r1 : FileObj := { symbolCache := f.symbols }
      match f.debuglink with
      | none =>
        if f.hasDwarf then finish { r1 with heldPath := some path, dwarfOk := true } st1
        else finish r1 st1
      | some dl =>
        -- try to open the split-debug file; on success switch the file and
        -- ELF handles to it, otherwise keep the original handles
        let st2 : LoaderState := { st1 with opens := st1.opens ++ [dl] }
        let g := env dl
        if g.openable && g.elfBeginOk then
          if g.hasDwarf then finish { r1 with heldPath := some dl, dwarfOk := true } st2
          else finish r1 st2
        else
          if f.hasDwarf then finish { r1 with heldPath := some path, dwarfOk := true } st2
          else finish r1 st2

/-! ## The libdw backend (`TraceResolverLinuxImpl<trace_resolver_tag::libdw>`)

Only the session-initialization logic of its `resolve` is embedded; the body
that runs once a session exists (module lookup, line lookup, DIE search) is
an oracle `rest`.  The returned `Nat` instruments how many times
`dwfl_begin` was invoked during the call. -/

/-- Oracle for the libdw `resolve`. -/
structure LibdwEnv where
  /-- What `dwfl_begin` returns (`none` for a null session handle). -/
  dwflBegin : Option Unit
  /-- `dwfl_linux_proc_report` returns non-negative. -/
  procReportOk : Bool
  /-- The rest of `resolve`, given a usable reported session. -/
  rest : ResolvedTrace → ResolvedTrace

/-- The backend's member state. -/
structure DwflState where
  initialized : Bool := false
  handle : Option Unit := none
deriving DecidableEq, Repr

/-- `TraceResolverLinuxImpl<trace_resolver_tag::libdw>::resolve`. -/
def libdwResolve (env : LibdwEnv) (st : DwflState) (trace : ResolvedTrace) :
    ResolvedTrace × DwflState × Nat :=
  if !st.initialized then
    let st' : DwflState := { initialized := true, handle := env.dwflBegin }
    match st'.handle with
    | none => (trace, st', 1)
    | some _ =>
      if !env.procReportOk then (trace, st', 1)
      else (env.rest trace, st', 1)
  else
    match st.handle with
    | none => (trace, st, 0)
    | some _ => (env.rest trace, st, 0)

/-! ## The libdwarf DWARF engine: DIE model

The debug-information tree of one compilation unit is embedded as an
inductive tree.  Each node carries the attributes the embedded code reads:

* `DW_AT_name` (`dwarf_diename`), `DW_AT_declaration`, `DW_AT_artificial`;
* `DW_AT_low_pc` / `DW_AT_high_pc` (the `high` value is stored as the final
  absolute end address, after the DWARF-4 constant-class offset has been
  added) and `DW_AT_ranges` as a list of `[low, high)` pairs (already
  rebased, entries with first component 0 are skipped like in the source);
* the `DW_AT_type` reference as a directly-nested chain of type nodes
  (`get_referenced_die` / `dwarf_offdie` dereferencing is represented by
  structural nesting);
* the call-site attributes of inlined calls: `die_call_file` is stored as the
  already-resolved file-table string (empty when the index is 0 or out of
  range), plus `DW_AT_call_line` / `DW_AT_call_column`;
* `DW_AT_linkage_name` / `DW_AT_MIPS_linkage_name`, collapsed into one;
* the `DW_AT_specification` / `DW_AT_abstract_origin` reference, collapsed
  into one optional referenced node (`get_spec_die` first consults the
  per-unit `spec_section` cache and otherwise follows the abstract origin;
  both paths yield one referenced DIE, which is what is stored here). -/

/-- The DWARF tags the embedded traversals dispatch on. -/
inductive DwTag where
  | subprogram
  | inlinedSubroutine
  | namespaceTag
  | classType
  | structureType
  | unionType
  | enumerationType
  | constType
  | pointerType
  | referenceType
  | restrictType
  | rvalueReferenceType
  | volatileType
  | typedefTag
  | baseType
  | formalParameter
  | otherTag
deriving DecidableEq, Repr

/-- A node of a `DW_AT_type` chain, as walked by `set_parameter_string`:
tag, `DW_AT_name`, the type signature resolved by `get_type_by_signature`
(when a `DW_AT_signature` attribute is present), and the next `DW_AT_type`
reference. -/
inductive TypeDie where
  | mk (tag : DwTag) (tname : Option String) (tsig : Option String)
      (tnext : Option TypeDie) : TypeDie

def TypeDie.tag : TypeDie → DwTag
  | .mk t _ _ _ => t

def TypeDie.tname : TypeDie → Option String
  | .mk _ n _ _ => n

def TypeDie.tsig : TypeDie → Option String
  | .mk _ _ sg _ => sg

def TypeDie.tnext : TypeDie → Option TypeDie
  | .mk _ _ _ nx => nx

/-- A DIE of the compilation-unit tree. -/
inductive Die where
  | mk (tag : DwTag) (dieName : Option String) (decl : Bool)
      (artificial : Bool) (lowPc : Option Nat) (highPc : Option Nat)
      (ranges : List (Nat × Nat)) (typeRef : Option TypeDie)
      (callFile : String) (callLine : Option Nat) (callCol : Option Nat)
      (linkage : Option String) (specDie : Option Die)
      (children : List Die) : Die

def Die.tag : Die → DwTag
  | .mk t _ _ _ _ _ _ _ _ _ _ _ _ _ => t

def Die.dieName : Die → Option String
  | .mk _ n _ _ _ _ _ _ _ _ _ _ _ _ => n

def Die.decl : Die → Bool
  | .mk _ _ d _ _ _ _ _ _ _ _ _ _ _ => d

def Die.artificial : Die → Bool
  | .mk _ _ _ a _ _ _ _ _ _ _ _ _ _ => a

def Die.lowPc : Die → Option Nat
  | .mk _ _ _ _ lo _ _ _ _ _ _ _ _ _ => lo

def Die.highPc : Die → Option Nat
  | .mk _ _ _ _ _ hi _ _ _ _ _ _ _ _ => hi

def Die.ranges : Die → List (Nat × Nat)
  | .mk _ _ _ _ _ _ rg _ _ _ _ _ _ _ => rg

def Die.typeRef : Die → Option TypeDie
  | .mk _ _ _ _ _ _ _ ty _ _ _ _ _ _ => ty

def Die.callFile : Die → String
  | .mk _ _ _ _ _ _ _ _ cf _ _ _ _ _ => cf

def Die.callLine : Die → Option Nat
  | .mk _ _ _ _ _ _ _ _ _ cl _ _ _ _ => cl

def Die.callCol : Die → Option Nat
  | .mk _ _ _ _ _ _ _ _ _ _ cc _ _ _ => cc

def Die.linkage : Die → Option String
  | .mk _ _ _ _ _ _ _ _ _ _ _ lk _ _ => lk

def Die.specDie : Die → Option Die
  | .mk _ _ _ _ _ _ _ _ _ _ _ _ sp _ => sp

def Die.children : Die → List Die
  | .mk _ _ _ _ _ _ _ _ _ _ _ _ _ ch => ch

mutual

/-- `die_has_pc(fobj, die, pc)`: a continuous `low_pc`/`high_pc` pair wins if
both are present; otherwise the `DW_AT_ranges` list (rebased by `low_pc`,
entries starting at 0 skipped) is searched, then the single-address
`pc == low_pc` case, and as a last resort — only when the DIE carries no
location attributes at all — the specification DIE is consulted. -/
def dieHasPc : Die → Nat → Bool
  | .mk _ _ _ _ lowPc highPc ranges _ _ _ _ _ specDie _, pc =>
    match lowPc, highPc with
    | some low, some high => decide (low ≤ pc ∧ pc < high)
    | lowOpt, _ =>
      let low := lowOpt.getD 0
      let hitRanges := ranges.any
        (fun ab => decide (ab.1 ≠ 0 ∧ ab.1 + low ≤ pc ∧ pc < ab.2 + low))
      if hitRanges then true
      else if low ≠ 0 && pc == low then true
      else if lowOpt.isNone && ranges.isEmpty then dieHasPcSpec specDie pc
      else false

/-- The specification-DIE fallback of `die_has_pc`. -/
def dieHasPcSpec : Option Die → Nat → Bool
  | some s, pc => dieHasPc s pc
  | none, _ => false

end

/-- The name of a referenced DIE, as `get_referenced_die_name` reports it
(the empty string when there is no reference or the referenced DIE is
nameless). -/
def specRefName : Option Die → String
  | some d => (d.dieName).getD ""
  | none => ""

/-- Likewise for a `DW_AT_type` reference of a function DIE (the return
type name). -/
def typeRefName : Option TypeDie → String
  | some t => (t.tname).getD ""
  | none => ""

/-- The mutable context of `set_parameter_string`. -/
structure TypeContext where
  is_const : Bool := false
  is_typedef : Bool := false
  has_type : Bool := false
  has_name : Bool := false
  text : String := ""
deriving DecidableEq, Repr

/-- `text.insert(0, s)` preceded by `if (!text.empty()) text.insert(0, " ")`. -/
def insertWordFront (word text : String) : String :=
  word ++ (if text ≠ "" then " " ++ text else text)

/-- The name / typedef step at the top of `set_parameter_string`: print the
DIE's name unless a typedef is being skipped (in which case a pending const
is printed instead). -/
def spsName (tname : Option String) (ctx0 : TypeContext) : TypeContext :=
  if !ctx0.is_typedef then
    match tname with
    | some n => { ctx0 with text := insertWordFront n ctx0.text }
    | none => ctx0
  else
    let c := { ctx0 with is_typedef := false, has_type := true }
    if c.is_const then { c with text := "const " ++ c.text, is_const := false }
    else c

/-- The tag switch of `set_parameter_string`: returns the updated context,
the `next_type_is_const` flag and the `is_keyword` flag. -/
def spsSwitch (tag : DwTag) (tsig : Option String) (ctx1 : TypeContext) :
    TypeContext × Bool × Bool :=
  match tag with
  | .structureType | .unionType | .classType | .enumerationType =>
    let c := { ctx1 with has_type := true }
    let c :=
      match tsig with
      | some sg =>
        -- the type lives in .debug_types; get_type_by_signature resolved it
        let t := if c.is_const then "const " ++ sg else sg
        { c with text := insertWordFront t c.text }
      | none => c
    ({ c with is_typedef := tag == DwTag.enumerationType }, false, true)
  | .constType => (ctx1, true, true)
  | .pointerType => ({ ctx1 with text := "*" ++ ctx1.text }, false, true)
  | .referenceType => ({ ctx1 with text := "&" ++ ctx1.text }, false, true)
  | .restrictType => ({ ctx1 with text := "restrict " ++ ctx1.text }, false, true)
  | .rvalueReferenceType => ({ ctx1 with text := "&&" ++ ctx1.text }, false, true)
  | .volatileType => ({ ctx1 with text := "volatile " ++ ctx1.text }, false, true)
  | .typedefTag =>
    -- propagate the const-ness to the next type
    ({ ctx1 with is_typedef := true, has_type := true }, ctx1.is_const, true)
  | .baseType => ({ ctx1 with has_type := true }, false, true)
  | .formalParameter => ({ ctx1 with has_name := true }, false, true)
  | _ => (ctx1, false, false)

/-- The pending-const print and the `is_const` handover that follow the tag
switch. -/
def spsConst (isKeyword nextTypeIsConst : Bool) (ctx2 : TypeContext) :
    TypeContext :=
  let ctx3 :=
    if !isKeyword && ctx2.is_const then { ctx2 with text := "const " ++ ctx2.text }
    else ctx2
  { ctx3 with is_const := nextTypeIsConst }

/-- The final `void` fallback for a named parameter with no type. -/
def spsVoid (ctx5 : TypeContext) : TypeContext :=
  if !ctx5.has_type && ctx5.has_name then
    { ctx5 with text := "void " ++ ctx5.text, has_type := true }
  else ctx5

mutual

/-- `set_parameter_string(fobj, die, context)`: right-to-left reconstruction
of one parameter's type text along its `DW_AT_type` chain — the name step,
the tag switch, the pending-const step, the recursion into the referenced
type, and the `void` fallback, in source order. -/
def setParameterString : TypeDie → TypeContext → TypeContext
  | .mk tag tname tsig tnext, ctx0 =>
    match spsSwitch tag tsig (spsName tname ctx0) with
    | (ctx2, nextTypeIsConst, isKeyword) =>
      spsVoid (setParameterStringRef tnext (spsConst isKeyword nextTypeIsConst ctx2))

/-- The recursion of `set_parameter_string` into the `DW_AT_type`
reference, when one is present. -/
def setParameterStringRef : Option TypeDie → TypeContext → TypeContext
  | some nx, ctx => setParameterString nx ctx
  | none, ctx => ctx

end

/-- The head of the chain `set_parameter_string` is started on: the
`DW_TAG_formal_parameter` DIE itself, then its `DW_AT_type` reference. -/
def paramChain (c : Die) : TypeDie :=
  TypeDie.mk DwTag.formalParameter c.dieName none c.typeRef

/-- One step of the parameter loop of `set_function_parameters`: a
non-artificial formal parameter appends its reconstructed type text, every
other child is skipped. -/
def paramAccum (acc : String) (c : Die) : String :=
  if c.tag == DwTag.formalParameter && !c.artificial then
    (if acc = "" then "(" else acc ++ ", ")
      ++ (setParameterString (paramChain c) {}).text
  else acc

/-- `set_function_parameters(function_name, ns, fobj, die)`: prefix the
namespace path and the return type, then append the parenthesized
comma-joined reconstruction of each non-artificial formal parameter of the
specification DIE (or of the DIE itself when it has no specification). -/
def setFunctionParameters (functionName : String) (ns : List String)
    (die : Die) : String :=
  let specDie := (die.specDie).getD die
  let nsName := ns.foldl (fun acc n => acc ++ n ++ "::") ""
  let fn1 := if nsName ≠ "" then nsName ++ functionName else functionName
  let retDie := typeRefName die.typeRef
  let returnType := if retDie = "" then typeRefName specDie.typeRef else retDie
  let fn2 := if returnType ≠ "" then returnType ++ " " ++ fn1 else fn1
  let parameters := specDie.children.foldl paramAccum ""
  let parameters := (if parameters = "" then "(" else parameters) ++ ")"
  fn2 ++ parameters

/-- `inliners_search_cb::operator()(die, ns)` of the libdwarf backend: a
matching `DW_TAG_subprogram` fills `source.function` (and possibly
`object_function` from a linkage name); a matching
`DW_TAG_inlined_subroutine` appends one call-site `SourceLoc` to
`inliners`. -/
def inlinersSearchCb (dm : String → Option String) (die : Die)
    (ns : List String) (trace : ResolvedTrace) : ResolvedTrace :=
  match die.tag with
  | DwTag.subprogram =>
    if trace.source.function ≠ "" then trace
    else
      let fname :=
        match die.dieName with
        | some n => n
        | none => specRefName die.specDie
      let fname := setFunctionParameters fname ns die
      let trace := { trace with source := { trace.source with function := fname } }
      if trace.object_function = "" then
        match die.linkage with
        | some lk => { trace with object_function := (dm lk).getD lk }
        | none => trace
      else trace
  | DwTag.inlinedSubroutine =>
    let fn0 :=
      match die.dieName with
      | some n => n
      | none => specRefName die.specDie
    let fn := setFunctionParameters fn0 ns die
    let file := die.callFile
    let sloc : SourceLoc :=
      { function := fn
        filename := if file ≠ "" then file else ""
        line := die.callLine.getD 0
        col := die.callCol.getD 0 }
    { trace with inliners := trace.inliners ++ [sloc] }
  | _ => trace

/-- The namespace-tracking tags of `deep_first_search_by_pc`. -/
def isNsTag (t : DwTag) : Bool :=
  t == DwTag.namespaceTag || t == DwTag.classType

/-! `deep_first_search_by_pc(fobj, parent_die, pc, ns, cb)`, written as the
loop over the sibling list of `parent_die`'s children.  Note the exact
control flow of the source: the recursion into a child precedes both the
`die_has_pc` test and the callback on that child, `branch_has_pc` is only
overwritten by the recursion when the child is not a declaration, and the
final result is the flag's value after the last sibling.
It is split into the per-die step and the sibling loop. -/
mutual

/-- One iteration of the sibling loop: push a namespace name if applicable,
recurse into the children unless the DIE is a (non-class) declaration, test
`die_has_pc` only when the recursion did not already find the address, and
invoke the callback on this DIE when the branch flag holds. -/
def dfsDie (dm : String → Option String) (pc : Nat) :
    Die → List String → Bool → ResolvedTrace → Bool × ResolvedTrace
  | Die.mk tag dieName decl artificial lowPc highPc ranges typeRef callFile
      callLine callCol linkage specDie children, ns, branch, tr =>
    let die := Die.mk tag dieName decl artificial lowPc highPc ranges typeRef
      callFile callLine callCol linkage specDie children
    let ns' := if isNsTag tag then ns ++ [dieName.getD "<unknown>"] else ns
    let isDecl := tag ≠ DwTag.classType && decl
    let step1 :=
      if !isDecl then dfsSiblings dm pc children ns' false tr
      else (branch, tr)
    let b2 := if step1.1 then true else dieHasPc die pc
    let tr2 := if b2 then inlinersSearchCb dm die ns' step1.2 else step1.2
    (b2, tr2)

def dfsSiblings (dm : String → Option String) (pc : Nat) :
    List Die → List String → Bool → ResolvedTrace → Bool × ResolvedTrace
  | [], _, branch, tr => (branch, tr)
  | die :: rest, ns, branch, tr =>
    let s := dfsDie dm pc die ns branch tr
    dfsSiblings dm pc rest ns s.1 s.2

end

/-! ## The libdwarf backend `resolve`

`TraceResolverLinuxImpl<trace_resolver_tag::libdwarf>::resolve(trace)`.
`dladdr1`, the demangler and the already-loaded object are oracles; the
three-stage compilation-unit search `find_die` composed with the per-unit
cache `get_die_cache` is one oracle from module-relative address to an
optional cached unit entry (its internals — aranges lookup, unit scan,
function scan — only decide found / not found here). -/

/-- A row of the per-unit line table, as the three libdwarf calls
(`dwarf_linesrc`, `dwarf_lineno`, `dwarf_lineoff_b`) report it. -/
structure LineRecord where
  srcFile : Option String := none
  lineNo : Option Nat := none
  colNo : Option Nat := none
deriving DecidableEq, Repr

/-- `die_cache_entry`: the line context / buffer state, the address-sorted
`line_section` map, and the unit's DIE tree (for `deep_first_search_by_pc`). -/
structure CuEntry where
  /-- `line_buffer`, `line_count` and `line_context` are all usable. -/
  lineOk : Bool := false
  /-- `line_section`: ascending (address, line record) pairs. -/
  lineSection : List (Nat × LineRecord) := []
  /-- The compilation-unit DIE. -/
  cuDie : Die

/-- `die_cache_entry::isEmpty()`. -/
def cuEntryEmpty (cu : CuEntry) : Bool :=
  !cu.lineOk || cu.lineSection.isEmpty

/-- `std::map::lower_bound` on an ascending association list: the first
entry whose key is `≥ k`, with its index. -/
def lowerBoundIdx (l : List (Nat × α)) (k : Nat) : Option Nat :=
  l.findIdx? (fun p => k ≤ p.1)

/-- The `line_section` search of `resolve`: `lower_bound(address)`, stepping
one entry back on an inexact hit unless that hit is the first entry (then
the address precedes the unit's whole line table and this step gives up),
and giving up when `lower_bound` lands at the end. -/
def lineLookup (sec : List (Nat × LineRecord)) (address : Nat) :
    Option LineRecord :=
  match lowerBoundIdx sec address with
  | some i =>
    match sec[i]? with
    | some entry =>
      if entry.1 = address then some entry.2
      else if i = 0 then none
      else (sec[i-1]?).map (fun p => p.2)
    | none => none
  | none => none

/-- The `symbol_cache` fallback search: `lower_bound(address)`, stepping one
entry back on an inexact hit when possible (the first entry is used as-is),
and finding nothing when `lower_bound` lands at the end. -/
def symbolLookup (cache : List (Nat × String)) (address : Nat) :
    Option String :=
  match lowerBoundIdx cache address with
  | some i =>
    match cache[i]? with
    | some entry =>
      if entry.1 = address then some entry.2
      else if i = 0 then some entry.2
      else (cache[i-1]?).map (fun p => p.2)
    | none => none
  | none => none

/-- What `dladdr1` reports for an address contained in a loaded object. -/
structure DlInfo where
  fname : Option String := none
  sname : Option String := none
  /-- `link_map->l_addr`, the module's load bias. -/
  linkBase : Nat := 0
deriving DecidableEq, Repr

/-- The loaded-object view `resolve` works on. -/
structure DwarfFileObject where
  dwarfOk : Bool := false
  symbolCache : List (Nat × String) := []
  findDie : Nat → Option CuEntry := fun _ => none

/-- The oracle environment of the libdwarf `resolve`. -/
structure LibdwarfEnv where
  /-- `dladdr1`; `none` models a zero return (broken trace). -/
  dladdr1 : Addr → Option DlInfo
  /-- `resolve_exec_path`: the display path (assigned to `object_filename`)
  and the possibly-rewritten `dli_fname` used to open the object. -/
  resolveExecPath : String → String × String
  /-- `abi::__cxa_demangle`; `none` models a failed demangle. -/
  cxaDemangle : String → Option String
  /-- `load_object_with_dwarf` on the (rewritten) `dli_fname`. -/
  load : String → DwarfFileObject

/-- `details::demangler::demangle`: fall back to the input itself when the
ABI demangler fails. -/
def demangleWith (dm : String → Option String) (s : String) : String :=
  (dm s).getD s

/-- `trace.addr - link_map->l_addr` in 64-bit pointer arithmetic. -/
def moduleRelative (addr base : Nat) : Nat :=
  (addr + (2 ^ 64 - base % 2 ^ 64)) % 2 ^ 64

/-- `TraceResolverLinuxImpl<trace_resolver_tag::libdwarf>::resolve`. -/
def libdwarfResolve (env : LibdwarfEnv) (trace : ResolvedTrace) :
    ResolvedTrace :=
  match env.dladdr1 trace.addr with
  | none => trace
  | some info =>
    let trace :=
      match info.sname with
      | some sn => { trace with object_function := demangleWith env.cxaDemangle sn }
      | none => trace
    match info.fname with
    | none => trace
    | some fn =>
      let display := (env.resolveExecPath fn).1
      let openName := (env.resolveExecPath fn).2
      let trace := { trace with object_filename := display }
      let fobj := env.load openName
      if !fobj.dwarfOk then trace
      else
        let address := moduleRelative trace.addr info.linkBase
        let trace :=
          if trace.object_function = "" then
            match symbolLookup fobj.symbolCache address with
            | some s => { trace with object_function := demangleWith env.cxaDemangle s }
            | none => trace
          else trace
        match fobj.findDie address with
        | none => trace
        | some cu =>
          if cuEntryEmpty cu then trace
          else
            match lineLookup cu.lineSection address with
            | none => trace
            | some lineRec =>
              let trace :=
                match lineRec.srcFile with
                | some sf =>
                  { trace with source := { trace.source with filename := sf } }
                | none => trace
              let trace :=
                { trace with source :=
                  { trace.source with
                    line := lineRec.lineNo.getD 0
                    col := lineRec.colNo.getD 0 } }
              (dfsSiblings env.cxaDemangle address cu.cuDie.children [] false trace).2

/-! ## Concrete fixtures -/

/-- The `int` base type node. -/
def intBase : TypeDie := TypeDie.mk DwTag.baseType (some "int") none none

/-- The declared-type chain of a `const char *` parameter:
pointer → const → base `char`. -/
def constCharPtr : TypeDie :=
  TypeDie.mk DwTag.pointerType none none
    (some (TypeDie.mk DwTag.constType none none
      (some (TypeDie.mk DwTag.baseType (some "char") none none))))

/-- The declared-type chain of a `MyClass &` parameter:
reference → class `MyClass`. -/
def myClassRef : TypeDie :=
  TypeDie.mk DwTag.referenceType none none
    (some (TypeDie.mk DwTag.classType (some "MyClass") none none))

/-- An unnamed, non-artificial formal parameter with the given type chain. -/
def mkParam (ty : TypeDie) : Die :=
  Die.mk DwTag.formalParameter none false false none none [] (some ty)
    "" none none none none []

/-- A compiler-synthesized (artificial) parameter. -/
def mkArtificialParam (ty : TypeDie) : Die :=
  Die.mk DwTag.formalParameter none false true none none [] (some ty)
    "" none none none none []

/-- The fixture function DIE for `int foo(const char*, MyClass&)` with full
debug information: return type `int`, two unnamed parameters. -/
def fooFixture : Die :=
  Die.mk DwTag.subprogram (some "foo") false false (some 100) (some 200) []
    (some intBase) "" none none none none
    [mkParam constCharPtr, mkParam myClassRef]

/-- The same fixture with an additional compiler-synthesized parameter. -/
def fooFixtureArtificial : Die :=
  Die.mk DwTag.subprogram (some "foo") false false (some 100) (some 200) []
    (some intBase) "" none none none none
    [mkArtificialParam (TypeDie.mk DwTag.pointerType none none none),
      mkParam constCharPtr, mkParam myClassRef]

/-- One frame of an inlined-call chain fixture. -/
structure InlineFrame where
  frameName : String
  lowA : Nat
  highA : Nat
  cfile : String
  cline : Nat
  ccol : Nat
deriving DecidableEq, Repr

/-- An inlined-subroutine DIE built from a frame, with the given children. -/
def mkInline (f : InlineFrame) (ch : List Die) : Die :=
  Die.mk DwTag.inlinedSubroutine (some f.frameName) false false
    (some f.lowA) (some f.highA) [] none f.cfile (some f.cline) (some f.ccol)
    none none ch

/-- A nested chain of inlined-subroutine DIEs, outermost frame first. -/
def mkNest : InlineFrame → List InlineFrame → Die
  | f, [] => mkInline f []
  | f, g :: rest => mkInline f [mkNest g rest]

/-- The physical (non-inlined) function DIE enclosing an inline chain. -/
def mkFunc (fname : String) (low high : Nat) (ch : List Die) : Die :=
  Die.mk DwTag.subprogram (some fname) false false (some low) (some high) []
    none "" none none none none ch

/-- The `SourceLoc` the inliner callback records for a chain frame. -/
def frameSloc (f : InlineFrame) : SourceLoc :=
  { function := f.frameName ++ "()"
    filename := f.cfile
    line := f.cline
    col := f.ccol }

/-- A two-level inline chain fixture: `f` (100..200) contains inlined `g`
(120..180, called at a.cpp:11:3), which contains inlined `h` (130..140,
called at b.cpp:22:5). -/
def frameG : InlineFrame :=
  { frameName := "g", lowA := 120, highA := 180
    cfile := "a.cpp", cline := 11, ccol := 3 }

def frameH : InlineFrame :=
  { frameName := "h", lowA := 130, highA := 140
    cfile := "b.cpp", cline := 22, ccol := 5 }

def inlineFixture : Die := mkFunc "f" 100 200 [mkNest frameG [frameH]]

/-- A fresh trace at address 135 (inside `h`). -/
def freshTrace135 : ResolvedTrace := { addr := 135, idx := 0 }

/-- The loader view a `libdwarfResolve` environment gets of a cached
`FileObj` (which holds no parsed units yet). -/
def dwarfView (r : FileObj) : DwarfFileObject :=
  { dwarfOk := r.dwarfOk, symbolCache := r.symbolCache, findDie := fun _ => none }

/-- C7 fixture filesystem: `bin` parses, has symbols `[(1, orig)]` and a
debug link to `bin.dbg`, but no DWARF data of its own; `bin.dbg` parses,
has its own symbols `[(2, ext)]` and DWARF data. -/
def debuglinkEnv : LoaderEnv := fun p =>
  if p = "bin" then
    { openable := true, elfBeginOk := true, headerOk := true
      symbols := [(1, "orig")], debuglink := some "bin.dbg", hasDwarf := false }
  else if p = "bin.dbg" then
    { openable := true, elfBeginOk := true, headerOk := true
      symbols := [(2, "ext")], debuglink := none, hasDwarf := true }
  else {}

/-- A minimal DIE for compilation-unit fixtures. -/
def emptyCuDie : Die :=
  Die.mk DwTag.otherTag none false false none none [] none "" none none
    none none []

/-- C8 witness environment: address 50 resolves into object `obj` (bias 0)
with symbol `sym`, the object has DWARF data and a compilation unit whose
line table is empty. -/
def lineFailEnv : LibdwarfEnv :=
  { dladdr1 := fun a =>
      if a = 50 then some { fname := some "obj", sname := some "sym", linkBase := 0 }
      else none
    resolveExecPath := fun s => (s, s)
    cxaDemangle := fun _ => none
    load := fun p =>
      if p = "obj" then
        { dwarfOk := true, symbolCache := []
          findDie := fun a =>
            if a = 50 then
              some { lineOk := true, lineSection := [], cuDie := emptyCuDie }
            else none }
      else { } }

/-- C4 witness environment: `dladdr` finds nothing at all (a wild address
such as `0x1` contained in no loaded object). -/
def wildEnv : LibdwarfEnv :=
  { dladdr1 := fun _ => none
    resolveExecPath := fun s => (s, s)
    cxaDemangle := fun _ => none
    load := fun _ => { } }

/-- C6 witness filesystem: `gone` cannot even be opened. -/
def unopenableEnv : LoaderEnv := fun _ => {}

/-- C10 witness environment: `dwfl_begin` returns a null session. -/
def dwflFailEnv : LibdwEnv :=
  { dwflBegin := none, procReportOk := true, rest := fun t => t }

/-- C6 witness resolver environment: address 7 resolves into the path
`gone`, whose load failed (the file cannot be opened). -/
def unopenEnv2 : LibdwarfEnv :=
  { dladdr1 := fun a =>
      if a = 7 then some { fname := some "gone", sname := none, linkBase := 0 }
      else none
    resolveExecPath := fun s => (s, s)
    cxaDemangle := fun _ => none
    load := fun _ => dwarfView (loadObjectWithDwarf unopenableEnv {} "gone").1 }

theorem cacheFind_append_of_none {c : Cache} {a b : Addr} {v : SourceLoc}
    (h : cacheFind c a = none) :
    cacheFind (c ++ [(b, v)]) a = if b = a then some v else none := by
  unfold cacheFind at *
  rw [List.find?_append]
  cases hfind : c.find? (fun p => p.1 == a) with
  | some p => simp [hfind] at h
  | none =>
    simp only [hfind, Option.none_or]
    by_cases hba : b = a
    · simp [hba]
    · have hbeq : (b == a) = false := by simp [hba]
      simp [List.find?, hbeq, hba]

theorem cacheFind_append_of_some {c : Cache} {a : Addr} {v : SourceLoc}
    (h : cacheFind c a = some v) (p : Addr × SourceLoc) :
    cacheFind (c ++ [p]) a = some v := by
  unfold cacheFind at *
  rw [List.find?_append]
  cases hfind : c.find? (fun q => q.1 == a) with
  | some q => simp only [hfind] at h ⊢; exact h
  | none => simp [hfind] at h

/-- The loop preserves cache consistency. -/
theorem resolveLoop_consistent (f : Addr → SourceLoc) :
    ∀ (addresses : List Addr) (st : FacadeState),
      CacheConsistent f st → CacheConsistent f (resolveLoop f addresses st).2 := by
  intro addresses
  induction addresses with
  | nil => intro st h; simpa [resolveLoop] using h
  | cons a rest ih =>
    intro st h
    unfold resolveLoop
    cases hfind : cacheFind st.locs a with
    | some v => exact ih st h
    | none =>
      apply ih
      intro b w hb
      dsimp only at hb
      cases hb' : cacheFind st.locs b with
      | some w0 =>
        rw [cacheFind_append_of_some hb' (a, f a)] at hb
        injection hb with hw
        subst hw
        exact h b w0 hb'
      | none =>
        rw [cacheFind_append_of_none hb'] at hb
        by_cases hab : a = b
        · subst hab; simp at hb; subst hb; rfl
        · simp [hab] at hb

/-- The loop never removes or changes an existing cache entry. -/
theorem resolveLoop_cache_mono (f : Addr → SourceLoc) :
    ∀ (addresses : List Addr) (st : FacadeState) (a : Addr) (v : SourceLoc),
      cacheFind st.locs a = some v →
      cacheFind (resolveLoop f addresses st).2.locs a = some v := by
  intro addresses
  induction addresses with
  | nil => intro st a v h; simpa [resolveLoop] using h
  | cons b rest ih =>
    intro st a v h
    unfold resolveLoop
    cases hfind : cacheFind st.locs b with
    | some w => exact ih st a v h
    | none => exact ih _ a v (cacheFind_append_of_some h _)

/-- The loop only invokes the backend on addresses missing from the cache,
so the invocation list stays duplicate-free and fully cached. -/
theorem resolveLoop_invocations (f : Addr → SourceLoc) :
    ∀ (addresses : List Addr) (st : FacadeState),
      st.invocations.Nodup → InvocationsCached st →
      (resolveLoop f addresses st).2.invocations.Nodup ∧
        InvocationsCached (resolveLoop f addresses st).2 := by
  intro addresses
  induction addresses with
  | nil => intro st h1 h2; simpa [resolveLoop] using ⟨h1, h2⟩
  | cons a rest ih =>
    intro st h1 h2
    unfold resolveLoop
    cases hfind : cacheFind st.locs a with
    | some v => exact ih st h1 h2
    | none =>
      apply ih
      · rw [List.nodup_append]
        refine ⟨h1, List.nodup_singleton a, ?_⟩
        intro b hb hb'
        simp only [List.mem_singleton] at hb'
        subst hb'
        have := h2 b hb
        rw [hfind] at this
        simp at this
      · intro b hb
        simp only [List.mem_append, List.mem_singleton] at hb
        cases hb with
        | inl hb =>
          have := h2 b hb
          cases hsome : cacheFind st.locs b with
          | none => rw [hsome] at this; simp at this
          | some w => rw [cacheFind_append_of_some hsome]; rfl
        | inr hb =>
          subst hb
          rw [cacheFind_append_of_none hfind]
          simp

/-- On a consistent cache, each output element is the backend resolution of
the corresponding input address. -/
theorem resolveLoop_outputs (f : Addr → SourceLoc) :
    ∀ (addresses : List Addr) (st : FacadeState),
      CacheConsistent f st →
      (resolveLoop f addresses st).1 = addresses.map f := by
  intro addresses
  induction addresses with
  | nil => intro st _; simp [resolveLoop]
  | cons a rest ih =>
    intro st h
    unfold resolveLoop
    cases hfind : cacheFind st.locs a with
    | some v =>
      have hv : v = f a := h a v hfind
      simp only [List.map_cons]
      rw [ih st h, hv]
    | none =>
      simp only [List.map_cons]
      rw [ih _ ?_]
      intro b w hb
      dsimp only at hb
      cases hb' : cacheFind st.locs b with
      | some w0 =>
        rw [cacheFind_append_of_some hb' (a, f a)] at hb
        injection hb with hw
        subst hw
        exact h b w0 hb'
      | none =>
        rw [cacheFind_append_of_none hb'] at hb
        by_cases hab : a = b
        · subst hab; simp at hb; subst hb; rfl
        · simp [hab] at hb

/-- Consistency of the state reached after any sequence of batches from the
initial (empty) state. -/
theorem runBatches_consistent (f : Addr → SourceLoc) :
    ∀ (batches : List (List Addr)) (st : FacadeState),
      CacheConsistent f st → CacheConsistent f (runBatches f batches st).2 := by
  intro batches
  induction batches with
  | nil => intro st h; simpa [runBatches] using h
  | cons b bs ih =>
    intro st h
    unfold runBatches
    exact ih _ (resolveLoop_consistent f b st h)

theorem initFacade_consistent (f : Addr → SourceLoc) :
    CacheConsistent f initFacade := by
  intro a v h
  simp [initFacade, cacheFind] at h

/-- Output of the loop on a consistent cache is pointwise backend resolution. -/
theorem resolveBatch_outputs (f : Addr → SourceLoc) (st : FacadeState)
    (h : CacheConsistent f st) (batch : List Addr) :
    (resolveBatch f st batch).1 = batch.map f :=
  resolveLoop_outputs f batch st h

theorem runBatches_append (f : Addr → SourceLoc) (bs1 bs2 : List (List Addr)) :
    ∀ st : FacadeState,
      runBatches f (bs1 ++ bs2) st =
        ((runBatches f bs1 st).1 ++ (runBatches f bs2 (runBatches f bs1 st).2).1,
         (runBatches f bs2 (runBatches f bs1 st).2).2) := by
  induction bs1 with
  | nil => intro st; simp [runBatches]
  | cons b bs ih =>
    intro st
    simp only [List.cons_append, runBatches, List.append_eq]
    rw [ih]

theorem runBatches_cache_mono (f : Addr → SourceLoc) :
    ∀ (bs : List (List Addr)) (st : FacadeState) (a : Addr) (v : SourceLoc),
      cacheFind st.locs a = some v →
      cacheFind (runBatches f bs st).2.locs a = some v := by
  intro bs
  induction bs with
  | nil => intro st a v h; simpa [runBatches] using h
  | cons b rest ih =>
    intro st a v h
    unfold runBatches
    exact ih _ a v (resolveLoop_cache_mono f b st a v h)

theorem runBatches_invocations (f : Addr → SourceLoc) :
    ∀ (bs : List (List Addr)) (st : FacadeState),
      st.invocations.Nodup → InvocationsCached st →
      (runBatches f bs st).2.invocations.Nodup ∧
        InvocationsCached (runBatches f bs st).2 := by
  intro bs
  induction bs with
  | nil => intro st h1 h2; simpa [runBatches] using And.intro h1 h2
  | cons b rest ih =>
    intro st h1 h2
    unfold runBatches
    have := resolveLoop_invocations f b st h1 h2
    exact ih _ this.1 this.2

theorem runBatches_outputs (f : Addr → SourceLoc) :
    ∀ (bs : List (List Addr)) (st : FacadeState),
      CacheConsistent f st →
      (runBatches f bs st).1 = bs.map (fun b => b.map f) := by
  intro bs
  induction bs with
  | nil => intro st _; simp [runBatches]
  | cons b rest ih =>
    intro st h
    unfold runBatches resolveBatch
    simp only [List.map_cons]
    rw [resolveLoop_outputs f b st h, ih _ (resolveLoop_consistent f b st h)]

/-- C1: For every batch of addresses passed to the facade resolve (after any
sequence of earlier batches in the same process run), the returned sequence of
source locations has the same length as the input batch, and its i-th element
is the backend resolution of the i-th input address, for every index i — also
for the empty batch and for batches with duplicate addresses. -/
theorem facade_resolve_batch_length_and_order (f : Addr → SourceLoc)
    (pre : List (List Addr)) (batch : List Addr) :
    (resolveBatch f (runBatches f pre initFacade).2 batch).1.length
        = batch.length ∧
      ∀ i : Nat,
        (resolveBatch f (runBatches f pre initFacade).2 batch).1[i]?
          = (batch[i]?).map f := by
  have hcons : CacheConsistent f (runBatches f pre initFacade).2 :=
    runBatches_consistent f pre initFacade (initFacade_consistent f)
  have hout := resolveBatch_outputs f _ hcons batch
  rw [hout]
  constructor
  · simp
  · intro i
    simp

/-- C2: Across all batches of one process run (starting from the empty cache),
the backend per-address resolve is invoked at most once per address (the
instrumented invocation list is duplicate-free); any cache entry present after
a prefix of the run is still present, unchanged, at the end; every cache entry
holds exactly the backend resolution of its address; and the outputs of every
batch are the backend resolutions, so every later occurrence of an address
returns a value identical to the first result. -/
theorem facade_cache_resolve_once (f : Addr → SourceLoc)
    (pre post : List (List Addr)) (a : Addr) :
    (runBatches f (pre ++ post) initFacade).2.invocations.Nodup ∧
      (cacheFind (runBatches f pre initFacade).2.locs a = none ∨
        cacheFind (runBatches f (pre ++ post) initFacade).2.locs a
          = cacheFind (runBatches f pre initFacade).2.locs a) ∧
      (cacheFind (runBatches f (pre ++ post) initFacade).2.locs a = none ∨
        cacheFind (runBatches f (pre ++ post) initFacade).2.locs a
          = some (f a)) ∧
      (runBatches f (pre ++ post) initFacade).1
        = (pre ++ post).map (fun b => b.map f) := by
  refine ⟨?_, ?_, ?_, ?_⟩
  · have h := runBatches_invocations f (pre ++ post) initFacade
      (by simp [initFacade]) (by intro a ha; simp [initFacade] at ha)
    exact h.1
  · cases hpre : cacheFind (runBatches f pre initFacade).2.locs a with
    | none => exact Or.inl rfl
    | some v =>
      refine Or.inr ?_
      rw [runBatches_append]
      exact runBatches_cache_mono f post _ a v hpre
  · cases hfin : cacheFind (runBatches f (pre ++ post) initFacade).2.locs a with
    | none => exact Or.inl rfl
    | some v =>
      refine Or.inr ?_
      have hcons : CacheConsistent f (runBatches f (pre ++ post) initFacade).2 :=
        runBatches_consistent f (pre ++ post) initFacade (initFacade_consistent f)
      rw [hcons a v hfin]
  · exact runBatches_outputs f (pre ++ post) initFacade (initFacade_consistent f)

/-- C5 (counterexample): for the fixture function `int foo(const char*,
MyClass&)` with full debug information, the reconstructed signature is NOT
the literal string `"int foo(const char*, MyClass&)"` the claim states:
`set_parameter_string` drops a const qualifier whose chain ends in a keyword
type node (the `is_keyword` guard skips the `"const "` insertion for
`DW_TAG_base_type`), and a space separates the base type name from the
modifier characters. -/
theorem signature_fixture_refuted :
    setFunctionParameters "foo" [] fooFixture ≠ "int foo(const char*, MyClass&)" := by
  decide

/-- C5 (amended): for the fixture function the reconstructed signature is the
literal string `"int foo(char *, MyClass &)"` (return type, then the
namespace-qualified name, then the parenthesized comma-joined parameter
reconstructions, with the const qualifier of the pointee dropped and a space
before each modifier group), and a compiler-synthesized parameter is
skipped: adding one leaves the string unchanged. -/
theorem signature_fixture_string :
    setFunctionParameters "foo" [] fooFixture = "int foo(char *, MyClass &)" ∧
      setFunctionParameters "foo" [] fooFixtureArtificial
        = "int foo(char *, MyClass &)" := by
  constructor
  · rfl
  · rfl

/-- C3 (counterexample): for the address 135 inside the two-level inline
chain `f` → `g` → `h`, the recorded `inliners` sequence is
`[h-entry, g-entry]` — the callback fires on the way back up the recursion,
so the innermost inlined call comes FIRST, refuting the claimed
outermost-first order `[g-entry, h-entry]`. -/
theorem inliner_chain_outermost_first_refuted :
    (dfsSiblings (fun _ => none) 135 [inlineFixture] [] false
        freshTrace135).2.inliners
      = [frameSloc frameH, frameSloc frameG] ∧
    [frameSloc frameH, frameSloc frameG] ≠ [frameSloc frameG, frameSloc frameH] := by
  constructor
  · rfl
  · decide

theorem mkInline_tag (f : InlineFrame) (ch : List Die) :
    (mkInline f ch).tag = DwTag.inlinedSubroutine := rfl

theorem mkInline_dieName (f : InlineFrame) (ch : List Die) :
    (mkInline f ch).dieName = some f.frameName := rfl

theorem mkInline_callFile (f : InlineFrame) (ch : List Die) :
    (mkInline f ch).callFile = f.cfile := rfl

theorem mkInline_callLine (f : InlineFrame) (ch : List Die) :
    (mkInline f ch).callLine = some f.cline := rfl

theorem mkInline_callCol (f : InlineFrame) (ch : List Die) :
    (mkInline f ch).callCol = some f.ccol := rfl

theorem mkInline_children (f : InlineFrame) (ch : List Die) :
    (mkInline f ch).children = ch := rfl

theorem mkNest_tag (f : InlineFrame) (rest : List InlineFrame) :
    (mkNest f rest).tag = DwTag.inlinedSubroutine := by
  cases rest <;> simp [mkNest, mkInline_tag]

theorem foldl_paramAccum_skip :
    ∀ (ch : List Die) (acc : String),
      (∀ c ∈ ch, c.tag ≠ DwTag.formalParameter) →
      ch.foldl paramAccum acc = acc := by
  intro ch
  induction ch with
  | nil => intro acc _; rfl
  | cons c rest ih =>
    intro acc h
    have hc : c.tag ≠ DwTag.formalParameter := h c (by simp)
    have hstep : paramAccum acc c = acc := by
      unfold paramAccum
      have hbeq : (c.tag == DwTag.formalParameter) = false := by
        simp [hc]
      simp [hbeq]
    rw [List.foldl_cons, hstep]
    exact ih acc (fun d hd => h d (by simp [hd]))

theorem sfp_mkInline (fname : String) (f : InlineFrame) (ch : List Die)
    (h : ∀ c ∈ ch, c.tag ≠ DwTag.formalParameter) :
    setFunctionParameters fname [] (mkInline f ch) = fname ++ "()" := by
  unfold setFunctionParameters
  simp only [Option.getD, typeRefName, List.foldl_nil, mkInline_children,
    show (mkInline f ch).specDie = none from rfl,
    show (mkInline f ch).typeRef = none from rfl]
  rw [foldl_paramAccum_skip ch "" h]
  simp

theorem cb_mkInline (dm : String → Option String) (f : InlineFrame)
    (ch : List Die) (tr : ResolvedTrace)
    (h : ∀ c ∈ ch, c.tag ≠ DwTag.formalParameter) :
    inlinersSearchCb dm (mkInline f ch) [] tr
      = { tr with inliners := tr.inliners ++ [frameSloc f] } := by
  have hsfp := sfp_mkInline f.frameName f ch h
  unfold inlinersSearchCb
  simp only [mkInline_tag, mkInline_dieName, mkInline_callFile,
    mkInline_callLine, mkInline_callCol, hsfp]
  simp [frameSloc]
  intro hc
  exact hc.symm

theorem dieHasPc_mkInline (f : InlineFrame) (ch : List Die) (pc : Nat) :
    dieHasPc (mkInline f ch) pc = decide (f.lowA ≤ pc ∧ pc < f.highA) := by
  simp [mkInline, dieHasPc]

theorem dfsDie_mkInline (dm : String → Option String) (pc : Nat)
    (f : InlineFrame) (ch : List Die) (branch : Bool) (tr : ResolvedTrace)
    (h : ∀ c ∈ ch, c.tag ≠ DwTag.formalParameter) :
    dfsDie dm pc (mkInline f ch) [] branch tr =
      ((dfsSiblings dm pc ch [] false tr).1 || decide (f.lowA ≤ pc ∧ pc < f.highA),
        if (dfsSiblings dm pc ch [] false tr).1 || decide (f.lowA ≤ pc ∧ pc < f.highA) then
          { (dfsSiblings dm pc ch [] false tr).2 with
            inliners := (dfsSiblings dm pc ch [] false tr).2.inliners ++ [frameSloc f] }
        else (dfsSiblings dm pc ch [] false tr).2) := by
  have hcb := fun tr2 => cb_mkInline dm f ch tr2 h
  show dfsDie dm pc (Die.mk DwTag.inlinedSubroutine (some f.frameName) false false
      (some f.lowA) (some f.highA) [] none f.cfile (some f.cline) (some f.ccol)
      none none ch) [] branch tr = _
  unfold dfsDie
  rw [show (Die.mk DwTag.inlinedSubroutine (some f.frameName) false false
      (some f.lowA) (some f.highA) [] none f.cfile (some f.cline) (some f.ccol)
      none none ch) = mkInline f ch from rfl]
  simp only [show isNsTag DwTag.inlinedSubroutine = false from rfl,
    Bool.and_false, Bool.not_false, Bool.false_eq_true, if_false, if_true,
    dieHasPc_mkInline]
  cases hb : (dfsSiblings dm pc ch [] false tr).1 with
  | true =>
    simp only [hb, Bool.true_or, if_true]
    rw [hcb]
  | false =>
    simp only [hb, Bool.false_or, Bool.false_eq_true, if_false]
    cases hpc : decide (f.lowA ≤ pc ∧ pc < f.highA) with
    | true =>
      simp only [hpc, if_true]
      rw [hcb]
    | false =>
      simp only [hpc, Bool.false_eq_true, if_false]

theorem dfsSiblings_singleton (dm : String → Option String) (pc : Nat)
    (d : Die) (ns : List String) (b : Bool) (tr : ResolvedTrace) :
    dfsSiblings dm pc [d] ns b tr = dfsDie dm pc d ns b tr := by
  conv_lhs => unfold dfsSiblings
  unfold dfsSiblings
  simp

/-- The inliner entries collected by the search on a nested inline chain:
one entry per frame, appended on the way back up the recursion. -/
theorem dfsNest (dm : String → Option String) (pc : Nat) :
    ∀ (rest : List InlineFrame) (f : InlineFrame) (tr : ResolvedTrace),
      (∀ fr ∈ f :: rest, fr.lowA ≤ pc ∧ pc < fr.highA) →
      dfsSiblings dm pc [mkNest f rest] [] false tr
        = (true,
          { tr with inliners := tr.inliners ++ ((f :: rest).map frameSloc).reverse }) := by
  intro rest
  induction rest with
  | nil =>
    intro f tr h
    have hf := h f (by simp)
    rw [show mkNest f [] = mkInline f [] from rfl]
    rw [dfsSiblings_singleton]
    rw [dfsDie_mkInline dm pc f [] false tr (by intro c hc; simp at hc)]
    rw [show dfsSiblings dm pc [] [] false tr = (false, tr) from rfl]
    simp [decide_eq_true hf]
  | cons g rs ih =>
    intro f tr h
    have hf := h f (by simp)
    have hrest : ∀ fr ∈ g :: rs, fr.lowA ≤ pc ∧ pc < fr.highA := by
      intro fr hfr
      exact h fr (by simp [hfr])
    rw [show mkNest f (g :: rs) = mkInline f [mkNest g rs] from rfl]
    rw [dfsSiblings_singleton]
    rw [dfsDie_mkInline dm pc f [mkNest g rs] false tr (by
      intro c hc
      simp only [List.mem_singleton] at hc
      subst hc
      rw [mkNest_tag]
      intro hcontra
      exact absurd hcontra (by decide))]
    rw [ih g tr hrest]
    simp [decide_eq_true hf]

theorem cbSubprogramInliners (dm : String → Option String) (die : Die)
    (ns : List String) (tr : ResolvedTrace)
    (htag : die.tag = DwTag.subprogram) :
    (inlinersSearchCb dm die ns tr).inliners = tr.inliners := by
  unfold inlinersSearchCb
  rw [htag]
  repeat' split
  all_goals try (rename_i hfn; by_cases hobj : tr.object_function = "" <;>
    simp [hobj])
  all_goals simp_all

/-- C3 (amended): whenever an address lies inside a chain of inlined calls,
the resolved trace's `inliners` sequence contains one entry per inlined-call
node on the path from the compilation unit's matching function down to the
innermost node containing the address — but ordered
innermost-at-the-instruction FIRST to outermost-enclosing-frame LAST,
because `deep_first_search_by_pc` invokes the callback on a node only after
returning from the recursion into its children. -/
theorem inliner_chain_innermost_first (dm : String → Option String)
    (pc : Nat) (tr : ResolvedTrace) (fname : String) (flow fhigh : Nat)
    (f : InlineFrame) (rest : List InlineFrame)
    (h : ∀ fr ∈ f :: rest, fr.lowA ≤ pc ∧ pc < fr.highA) :
    (dfsSiblings dm pc [mkFunc fname flow fhigh [mkNest f rest]] [] false
        tr).2.inliners
      = tr.inliners ++ ((f :: rest).map frameSloc).reverse := by
  rw [dfsSiblings_singleton]
  show (dfsDie dm pc (Die.mk DwTag.subprogram (some fname) false false
      (some flow) (some fhigh) [] none "" none none none none
      [mkNest f rest]) [] false tr).2.inliners = _
  unfold dfsDie
  simp only [show isNsTag DwTag.subprogram = false from rfl, Bool.and_false,
    Bool.not_false, Bool.false_eq_true, if_false, if_true]
  rw [dfsNest dm pc rest f tr h]
  simp only [if_true]
  have hfinal := cbSubprogramInliners dm
    (Die.mk DwTag.subprogram (some fname) false false (some flow) (some fhigh)
      [] none "" none none none none [mkNest f rest]) []
    { tr with inliners := tr.inliners ++ ((f :: rest).map frameSloc).reverse }
    rfl
  simpa using hfinal

/-- C3 (witness): the amended order theorem applied to the concrete
two-level chain at address 135. -/
theorem inliner_chain_innermost_first_witness :
    (dfsSiblings (fun _ => none) 135 [mkFunc "f" 100 200 [mkNest frameG [frameH]]]
        [] false freshTrace135).2.inliners
      = freshTrace135.inliners ++ (([frameG, frameH]).map frameSloc).reverse :=
  inliner_chain_innermost_first (fun _ => none) 135 freshTrace135 "f" 100 200
    frameG [frameH] (by decide)

theorem inlinersSearchCb_preserves (dm : String → Option String) (die : Die)
    (ns : List String) (tr : ResolvedTrace) :
    (inlinersSearchCb dm die ns tr).addr = tr.addr ∧
      (inlinersSearchCb dm die ns tr).idx = tr.idx := by
  unfold inlinersSearchCb
  repeat' split
  all_goals try (by_cases hobj : tr.object_function = "" <;> simp [hobj])

theorem dfs_preserves_aux : ∀ (n : Nat),
    (∀ (die : Die) (dm : String → Option String) (pc : Nat) (ns : List String)
        (b : Bool) (tr : ResolvedTrace), sizeOf die ≤ n →
      (dfsDie dm pc die ns b tr).2.addr = tr.addr ∧
        (dfsDie dm pc die ns b tr).2.idx = tr.idx) ∧
    (∀ (l : List Die) (dm : String → Option String) (pc : Nat) (ns : List String)
        (b : Bool) (tr : ResolvedTrace), sizeOf l ≤ n →
      (dfsSiblings dm pc l ns b tr).2.addr = tr.addr ∧
        (dfsSiblings dm pc l ns b tr).2.idx = tr.idx) := by
  intro n
  induction n with
  | zero =>
    constructor
    · intro die _ _ _ _ _ hsz
      exfalso
      cases die with
      | mk tag dieName decl artificial lowPc highPc ranges typeRef callFile
          callLine callCol linkage specDie children =>
        simp at hsz
    · intro l _ _ _ _ _ hsz
      exfalso
      cases l <;> simp at hsz
  | succ n ih =>
    constructor
    · intro die dm pc ns b tr hsz
      cases die with
      | mk tag dieName decl artificial lowPc highPc ranges typeRef callFile
          callLine callCol linkage specDie children =>
        have hch : sizeOf children ≤ n := by
          simp at hsz
          omega
        unfold dfsDie
        set die0 := Die.mk tag dieName decl artificial lowPc highPc ranges
          typeRef callFile callLine callCol linkage specDie children with hdie0
        set ns' := if isNsTag tag then ns ++ [dieName.getD "<unknown>"] else ns
          with hns
        by_cases hdecl : (tag ≠ DwTag.classType && decl) = true
        · simp only [hdecl, Bool.not_true, Bool.false_eq_true, if_false]
          repeat' split
          all_goals first
          | exact ⟨rfl, rfl⟩
          | exact inlinersSearchCb_preserves dm die0 ns' tr
        · simp only [Bool.not_eq_true] at hdecl
          simp only [hdecl, Bool.not_false, if_true]
          have hrec := ih.2 children dm pc ns' false tr hch
          have hcb := inlinersSearchCb_preserves dm die0 ns'
            (dfsSiblings dm pc children ns' false tr).2
          repeat' split
          all_goals first
          | exact hrec
          | exact ⟨hcb.1.trans hrec.1, hcb.2.trans hrec.2⟩
    · intro l dm pc ns b tr hsz
      cases l with
      | nil => exact ⟨rfl, rfl⟩
      | cons die rest =>
        have hdie : sizeOf die ≤ n := by simp at hsz; omega
        have hrest : sizeOf rest ≤ n := by simp at hsz; omega
        unfold dfsSiblings
        have h1 := ih.1 die dm pc ns b tr hdie
        have h2 := ih.2 rest dm pc ns (dfsDie dm pc die ns b tr).1
          (dfsDie dm pc die ns b tr).2 hrest
        exact ⟨h2.1.trans h1.1, h2.2.trans h1.2⟩

theorem dfsSiblings_preserves (dm : String → Option String) (pc : Nat)
    (l : List Die) (ns : List String) (b : Bool) (tr : ResolvedTrace) :
    (dfsSiblings dm pc l ns b tr).2.addr = tr.addr ∧
      (dfsSiblings dm pc l ns b tr).2.idx = tr.idx :=
  (dfs_preserves_aux (sizeOf l)).2 l dm pc ns b tr (Nat.le_refl _)

/-- C4: the per-trace resolve of the libdwarf backend is total — it is a
total function by construction, mirroring every early return of the source;
it never changes the trace identity (`addr`, `idx`), and for a null or wild
address contained in no loaded object (a failing `dladdr`) it returns its
input trace unchanged, every field still at its unknown sentinel. -/
theorem libdwarf_resolve_total (env : LibdwarfEnv) (t : ResolvedTrace) :
    (libdwarfResolve env t).addr = t.addr ∧
      (libdwarfResolve env t).idx = t.idx ∧
      (env.dladdr1 t.addr = none → libdwarfResolve env t = t) := by
  have himp : env.dladdr1 t.addr = none → libdwarfResolve env t = t := by
    intro h
    unfold libdwarfResolve
    rw [h]
  have hmain : (libdwarfResolve env t).addr = t.addr ∧
      (libdwarfResolve env t).idx = t.idx := by
    unfold libdwarfResolve
    cases hd : env.dladdr1 t.addr with
    | none => exact ⟨rfl, rfl⟩
    | some info =>
      repeat' (first | split | (dsimp only))
      all_goals first
      | exact ⟨rfl, rfl⟩
      | exact ⟨(dfsSiblings_preserves _ _ _ _ _ _).1,
          (dfsSiblings_preserves _ _ _ _ _ _).2⟩
  exact ⟨hmain.1, hmain.2, himp⟩

/-- C4 (witness): at the wild address 1 in an environment where `dladdr`
finds no containing object, resolve returns the input unchanged. -/
theorem libdwarf_resolve_total_witness :
    (libdwarfResolve wildEnv { addr := 1, idx := 0 }).addr
        = ({ addr := 1, idx := 0 } : ResolvedTrace).addr ∧
      (libdwarfResolve wildEnv { addr := 1, idx := 0 }).idx
        = ({ addr := 1, idx := 0 } : ResolvedTrace).idx ∧
      (wildEnv.dladdr1 ({ addr := 1, idx := 0 } : ResolvedTrace).addr = none →
        libdwarfResolve wildEnv { addr := 1, idx := 0 } = { addr := 1, idx := 0 }) :=
  libdwarf_resolve_total wildEnv { addr := 1, idx := 0 }

/-- C8: when the owning compilation unit is found but its line table is
empty/unusable, or the address precedes the unit's first line entry (the
lower-bound search gives up), only that step fails: the source location
(file, line, column) of the result is exactly the input's (the unknown
sentinel for a fresh trace), the inliner list is unchanged, while the
symbol-level function name from `dladdr` and the object filename are still
resolved. -/
theorem line_not_found_keeps_function (env : LibdwarfEnv) (t : ResolvedTrace)
    (info : DlInfo) (sn fn : String) (cu : CuEntry)
    (h1 : env.dladdr1 t.addr = some info)
    (h2 : info.sname = some sn)
    (h3 : info.fname = some fn)
    (h4 : (env.load (env.resolveExecPath fn).2).dwarfOk = true)
    (h5 : demangleWith env.cxaDemangle sn ≠ "")
    (h6 : (env.load (env.resolveExecPath fn).2).findDie
        (moduleRelative t.addr info.linkBase) = some cu)
    (h7 : cuEntryEmpty cu = true ∨
      lineLookup cu.lineSection (moduleRelative t.addr info.linkBase) = none) :
    (libdwarfResolve env t).source = t.source ∧
      (libdwarfResolve env t).inliners = t.inliners ∧
      (libdwarfResolve env t).object_function = demangleWith env.cxaDemangle sn ∧
      (libdwarfResolve env t).object_filename = (env.resolveExecPath fn).1 := by
  unfold libdwarfResolve
  simp only [h1, h2, h3, h4, Bool.not_true, Bool.false_eq_true, if_false,
    if_neg h5, h6]
  by_cases hcu : cuEntryEmpty cu = true
  · simp only [hcu, if_true]
    exact ⟨trivial, trivial, trivial, trivial⟩
  · simp only [hcu, if_false]
    have hline : lineLookup cu.lineSection (moduleRelative t.addr info.linkBase)
        = none := by
      cases h7 with
      | inl h => exact absurd h hcu
      | inr h => exact h
    rw [hline]
    exact ⟨rfl, rfl, rfl, rfl⟩

/-- C8 (witness): a concrete environment with a found unit whose line table
is empty: the function name resolves from the symbol table while the source
location remains the unknown sentinel. -/
theorem line_not_found_keeps_function_witness :
    (libdwarfResolve lineFailEnv { addr := 50, idx := 0 }).source
        = ({ addr := 50, idx := 0 } : ResolvedTrace).source ∧
      (libdwarfResolve lineFailEnv { addr := 50, idx := 0 }).inliners
        = ({ addr := 50, idx := 0 } : ResolvedTrace).inliners ∧
      (libdwarfResolve lineFailEnv { addr := 50, idx := 0 }).object_function
        = demangleWith lineFailEnv.cxaDemangle "sym" ∧
      (libdwarfResolve lineFailEnv { addr := 50, idx := 0 }).object_filename
        = (lineFailEnv.resolveExecPath "obj").1 :=
  line_not_found_keeps_function lineFailEnv { addr := 50, idx := 0 }
    { fname := some "obj", sname := some "sym", linkBase := 0 } "sym" "obj"
    { lineOk := true, lineSection := [], cuDie := emptyCuDie }
    (by rfl) (by rfl) (by rfl) (by rfl) (by decide) (by rfl)
    (Or.inr (by rfl))

theorem loaderFind_append (st : LoaderState) (o2 : List String) (path : String)
    (r : FileObj) (h : loaderFind st path = none) :
    loaderFind { cache := st.cache ++ [(path, r)], opens := o2 } path = some r := by
  unfold loaderFind at *
  rw [List.find?_append]
  cases hf : st.cache.find? (fun p => p.1 == path) with
  | some p => simp [hf] at h
  | none => simp [hf, List.find?]

/-- A load that finds the path already cached returns the cached object and
leaves the state untouched. -/
theorem load_hit (env : LoaderEnv) (st : LoaderState) (path : String)
    (r : FileObj) (h : loaderFind st path = some r) :
    loadObjectWithDwarf env st path = (r, st) := by
  unfold loadObjectWithDwarf
  rw [h]

/-- After any load, the path's entry is in the cache and equals the returned
object (the map entry is created before the load attempts begin and every
early return leaves it cached). -/
theorem load_result_cached (env : LoaderEnv) (st : LoaderState) (path : String) :
    loaderFind (loadObjectWithDwarf env st path).2 path
      = some (loadObjectWithDwarf env st path).1 := by
  unfold loadObjectWithDwarf
  cases hf : loaderFind st path with
  | some r => exact hf
  | none =>
    dsimp only
    repeat' split
    all_goals exact loaderFind_append _ _ _ _ hf

/-- C6: loading is idempotent per path and failures are cached: the loaded
(or failed-empty) object is cached under its path; a second load returns the
very same object and leaves the state — including the instrumented list of
`open` syscalls — untouched, so a failing path is never reopened or
re-parsed; and an entry whose load failed at any step (`dwarf_handle` null)
makes the resolver treat the object as nothing-found: resolution stops
before any debug information is consulted, leaving source fields and
inliners unchanged. -/
theorem load_idempotent_failure_cached
    (env : LoaderEnv) (st : LoaderState) (path : String)
    (env2 : LibdwarfEnv) (t : ResolvedTrace) (info : DlInfo) (fn : String)
    (hdl : env2.dladdr1 t.addr = some info) (hfn : info.fname = some fn)
    (hload : env2.load (env2.resolveExecPath fn).2
        = dwarfView (loadObjectWithDwarf env st path).1) :
    loaderFind (loadObjectWithDwarf env st path).2 path
        = some (loadObjectWithDwarf env st path).1 ∧
      loadObjectWithDwarf env (loadObjectWithDwarf env st path).2 path
        = loadObjectWithDwarf env st path ∧
      ((loadObjectWithDwarf env st path).1.dwarfOk = false →
        (libdwarfResolve env2 t).source = t.source ∧
          (libdwarfResolve env2 t).inliners = t.inliners) := by
  refine ⟨load_result_cached env st path, ?_, ?_⟩
  · rw [load_hit env (loadObjectWithDwarf env st path).2 path
      (loadObjectWithDwarf env st path).1 (load_result_cached env st path)]
  · intro hfail
    unfold libdwarfResolve
    simp only [hdl]
    cases hsn : info.sname with
    | some sn =>
      simp only [hsn, hfn, hload, dwarfView, hfail, Bool.not_false, if_true]
      exact ⟨trivial, trivial⟩
    | none =>
      simp only [hsn, hfn, hload, dwarfView, hfail, Bool.not_false, if_true]
      exact ⟨trivial, trivial⟩

/-- C6 (witness): loading an unopenable path caches a permanently-empty
entry, reloading returns it without reopening, and the resolver treats the
object as nothing-found. -/
theorem load_idempotent_failure_cached_witness :
    loaderFind (loadObjectWithDwarf unopenableEnv {} "gone").2 "gone"
        = some (loadObjectWithDwarf unopenableEnv {} "gone").1 ∧
      loadObjectWithDwarf unopenableEnv
          (loadObjectWithDwarf unopenableEnv {} "gone").2 "gone"
        = loadObjectWithDwarf unopenableEnv {} "gone" ∧
      ((loadObjectWithDwarf unopenableEnv {} "gone").1.dwarfOk = false →
        (libdwarfResolve unopenEnv2 { addr := 7, idx := 0 }).source
            = ({ addr := 7, idx := 0 } : ResolvedTrace).source ∧
          (libdwarfResolve unopenEnv2 { addr := 7, idx := 0 }).inliners
            = ({ addr := 7, idx := 0 } : ResolvedTrace).inliners) :=
  load_idempotent_failure_cached unopenableEnv {} "gone" unopenEnv2
    { addr := 7, idx := 0 }
    { fname := some "gone", sname := none, linkBase := 0 } "gone"
    (by rfl) (by rfl) (by rfl)

/-- C7 (counterexample): the C7 fixture `bin` has symbols `[(1, orig)]` and a
debug link to `bin.dbg` (symbols `[(2, ext)]`, DWARF data).  The loader does
switch its retained handles to `bin.dbg` and opens the DWARF data there, but
the cached symbol table is still the one extracted from `bin` — the
symbol-table extraction is NOT re-applied to the external file, refuting the
claim that "the same symbol-table and debug extraction" is applied to it. -/
theorem debuglink_symbols_refuted :
    (loadObjectWithDwarf debuglinkEnv {} "bin").1.heldPath = some "bin.dbg" ∧
      (loadObjectWithDwarf debuglinkEnv {} "bin").1.dwarfOk = true ∧
      (loadObjectWithDwarf debuglinkEnv {} "bin").1.symbolCache = [(1, "orig")] ∧
      (loadObjectWithDwarf debuglinkEnv {} "bin").1.symbolCache
        ≠ (debuglinkEnv "bin.dbg").symbols := by
  refine ⟨rfl, rfl, rfl, ?_⟩
  decide

/-- C7 (amended): when a loaded ELF object has a debug-link section naming an
external split-debug file and that file can be opened as a valid ELF
container, the loader switches its file and ELF handles to the external file
and applies the debug-information (DWARF) initialization to it — while the
symbol table remains the one extracted from the original file's sections; if
the external file is not openable, the original file's handles are kept and
used. -/
theorem debuglink_switch_dwarf_only
    (env : LoaderEnv) (st : LoaderState) (path dl : String)
    (hmiss : loaderFind st path = none)
    (hopen : (env path).openable = true)
    (helf : (env path).elfBeginOk = true)
    (hhdr : (env path).headerOk = true)
    (hdbg : (env path).debuglink = some dl) :
    (loadObjectWithDwarf env st path).1.symbolCache = (env path).symbols ∧
      (((env dl).openable && (env dl).elfBeginOk) = true →
        (loadObjectWithDwarf env st path).1.dwarfOk = (env dl).hasDwarf ∧
          (loadObjectWithDwarf env st path).1.heldPath
            = (if (env dl).hasDwarf then some dl else none)) ∧
      (((env dl).openable && (env dl).elfBeginOk) = false →
        (loadObjectWithDwarf env st path).1.dwarfOk = (env path).hasDwarf ∧
          (loadObjectWithDwarf env st path).1.heldPath
            = (if (env path).hasDwarf then some path else none)) := by
  unfold loadObjectWithDwarf
  simp only [hmiss, hopen, helf, hhdr, hdbg, Bool.not_true, Bool.false_eq_true,
    if_false]
  refine ⟨?_, ?_, ?_⟩
  · cases hext : ((env dl).openable && (env dl).elfBeginOk) <;>
      cases hdw : (env dl).hasDwarf <;>
      cases hdw2 : (env path).hasDwarf <;>
      simp [hext, hdw, hdw2]
  · intro hext
    cases hdw : (env dl).hasDwarf <;> simp [hext, hdw]
  · intro hext
    cases hdw : (env path).hasDwarf <;> simp [hext, hdw]

/-- C7 (witness): the amended statement on the concrete debug-link fixture. -/
theorem debuglink_switch_dwarf_only_witness :
    (loadObjectWithDwarf debuglinkEnv {} "bin").1.symbolCache
        = (debuglinkEnv "bin").symbols ∧
      (((debuglinkEnv "bin.dbg").openable
          && (debuglinkEnv "bin.dbg").elfBeginOk) = true →
        (loadObjectWithDwarf debuglinkEnv {} "bin").1.dwarfOk
            = (debuglinkEnv "bin.dbg").hasDwarf ∧
          (loadObjectWithDwarf debuglinkEnv {} "bin").1.heldPath
            = (if (debuglinkEnv "bin.dbg").hasDwarf then some "bin.dbg" else none)) ∧
      (((debuglinkEnv "bin.dbg").openable
          && (debuglinkEnv "bin.dbg").elfBeginOk) = false →
        (loadObjectWithDwarf debuglinkEnv {} "bin").1.dwarfOk
            = (debuglinkEnv "bin").hasDwarf ∧
          (loadObjectWithDwarf debuglinkEnv {} "bin").1.heldPath
            = (if (debuglinkEnv "bin").hasDwarf then some "bin" else none)) :=
  debuglink_switch_dwarf_only debuglinkEnv {} "bin" "bin.dbg"
    (by rfl) (by rfl) (by rfl) (by rfl) (by rfl)

/-- C10: in the libdw backend the DWARF session is initialized only when the
`initialized` flag is still unset — that first call performs exactly one
`dwfl_begin` and stores whatever handle it returned, and a null handle still
sets the flag; on every later call no initialization happens (zero
`dwfl_begin` calls, state unchanged), and if the stored session handle is
null the call returns its input trace unchanged. -/
theorem libdw_init_once (env : LibdwEnv) (st : DwflState) (t : ResolvedTrace) :
    (st.initialized = false →
      (libdwResolve env st t).2.1
          = { initialized := true, handle := env.dwflBegin } ∧
        (libdwResolve env st t).2.2 = 1 ∧
        (env.dwflBegin = none → (libdwResolve env st t).1 = t)) ∧
      (st.initialized = true →
        (libdwResolve env st t).2.1 = st ∧
          (libdwResolve env st t).2.2 = 0 ∧
          (st.handle = none → (libdwResolve env st t).1 = t)) := by
  unfold libdwResolve
  constructor
  · intro hinit
    simp only [hinit, Bool.not_false, if_true]
    cases hb : env.dwflBegin with
    | none => exact ⟨rfl, rfl, fun _ => rfl⟩
    | some u => cases hr : env.procReportOk <;> simp [hr]
  · intro hinit
    simp only [hinit, Bool.not_true, Bool.false_eq_true, if_false]
    cases hh : st.handle with
    | none => exact ⟨rfl, rfl, fun _ => rfl⟩
    | some u => simp

/-- C10 (witness): with `dwfl_begin` failing, a later call on the
already-initialized state performs no re-initialization and returns its
input unchanged. -/
theorem libdw_init_once_witness :
    (({ initialized := true, handle := none } : DwflState).initialized = false →
      (libdwResolve dwflFailEnv { initialized := true, handle := none }
          { addr := 9, idx := 0 }).2.1
          = { initialized := true, handle := dwflFailEnv.dwflBegin } ∧
        (libdwResolve dwflFailEnv { initialized := true, handle := none }
          { addr := 9, idx := 0 }).2.2 = 1 ∧
        (dwflFailEnv.dwflBegin = none →
          (libdwResolve dwflFailEnv { initialized := true, handle := none }
            { addr := 9, idx := 0 }).1 = { addr := 9, idx := 0 })) ∧
      (({ initialized := true, handle := none } : DwflState).initialized = true →
        (libdwResolve dwflFailEnv { initialized := true, handle := none }
            { addr := 9, idx := 0 }).2.1
            = { initialized := true, handle := none } ∧
          (libdwResolve dwflFailEnv { initialized := true, handle := none }
            { addr := 9, idx := 0 }).2.2 = 0 ∧
          (({ initialized := true, handle := none } : DwflState).handle = none →
            (libdwResolve dwflFailEnv { initialized := true, handle := none }
              { addr := 9, idx := 0 }).1 = { addr := 9, idx := 0 })) :=
  libdw_init_once dwflFailEnv { initialized := true, handle := none }
    { addr := 9, idx := 0 }

end Backward
